import Mathlib

/-!
Verification of the redrock minimum-refinement engine.

Shallow embedding of `py/redrock/fitz.py` (candidate extraction, parabolic
refinement, velocity de-duplication, finalization), of the call surface of
`py/redrock/archetypes.py` (`Archetype.get_best_archetype`), and of the
`Spectrum` constructor in `py/redrock/targets.py`.

Conventions of the embedding:
* NumPy floating-point arithmetic is embedded over `ℚ` (exact arithmetic;
  the spec speaks of real-valued quantities, the float representation is a
  coding detail).
* Collaborator modules that are not part of this source snapshot
  (`rebin.py`, `zscan.py`, `utils.py`) enter as explicit function
  parameters of `fitz`: `scan` stands for the composite
  rebin_template/transmission_Lyman/calc_zchi2_batch evaluation of the
  fine redshift grid (fitz.py lines 179-192), and `single` for the
  single-point evaluation inside the `try` block (lines 198-209), with
  `none` standing for a raised `ValueError`.
* `constants.max_velo_diff` and `constants.min_resolution_integral`
  (`constants.py` is not in the snapshot) are universally quantified
  parameters, so every theorem below holds for the actual configured
  values, whatever they are.
* Python `IndexError`-free list indexing is embedded by `List.getD`; the
  indices used by `fitz` are in range whenever the coarse scan has at
  least two points, which the spec's §7 declares a precondition
  (fewer than 2 points is "malformed input").
-/

namespace Redrock

/-- Modelled from the spec: `zwarning.ZWarningMask.BAD_MINFIT`
(`zwarning.py` is not part of the source snapshot; the spec fixes only that
`zwarn` is a bit-flag field).  Embedded as the bit `2 ^ 10`. -/
def ZW_BAD_MINFIT : Nat := 1024

/-- Modelled from the spec: `zwarning.ZWarningMask.Z_FITLIMIT`, a `zwarn`
bit distinct from `ZW_BAD_MINFIT`.  Embedded as the bit `2 ^ 5`. -/
def ZW_Z_FITLIMIT : Nat := 32

/-- fitz.py line 36: `c = scipy.constants.speed_of_light/1000.` in km/s. -/
def cLight : ℚ := 299792458 / 1000

/-- fitz.py lines 24-39, `get_dv`: velocity difference in km/s between
redshift `z` and reference redshift `zref`. -/
def get_dv (z zref : ℚ) : ℚ := cLight * (z - zref) / (1 + zref)

/-- fitz.py line 59, pointwise condition: index `i` passes both
neighbour tests `np.r_[True, x[1:] <= x[:-1]]` and
`np.r_[x[:-1] <= x[1:], True]` (a boundary index counts the missing outer
neighbour as satisfied). -/
def isLocalMin (x : List ℚ) (i : Nat) : Prop :=
  (i = 0 ∨ x.getD i 0 ≤ x.getD (i - 1) 0) ∧
    (i = x.length - 1 ∨ x.getD i 0 ≤ x.getD (i + 1) 0)

instance (x : List ℚ) (i : Nat) : Decidable (isLocalMin x i) := by
  unfold isLocalMin; infer_instance

/-- Sort order realising `np.argsort(x[ii])` at fitz.py line 61: ascending
value; the tie order among equal values is what the docstring example at
line 49 (`find_minima([1,1,1,2,2,2]) -> [0,1,2,4,5]`) documents, namely
original index order. -/
def valueIdxLe (x : List ℚ) (i j : Nat) : Prop :=
  x.getD i 0 < x.getD j 0 ∨ (x.getD i 0 = x.getD j 0 ∧ i ≤ j)

instance (x : List ℚ) : DecidableRel (valueIdxLe x) := fun i j => by
  unfold valueIdxLe; infer_instance

instance (x : List ℚ) : IsTotal Nat (valueIdxLe x) := by
  constructor
  intro i j
  rcases lt_trichotomy (x.getD i 0) (x.getD j 0) with h | h | h
  · exact Or.inl (Or.inl h)
  · rcases Nat.le_total i j with hij | hij
    · exact Or.inl (Or.inr ⟨h, hij⟩)
    · exact Or.inr (Or.inr ⟨h.symm, hij⟩)
  · exact Or.inr (Or.inl h)

instance (x : List ℚ) : IsTrans Nat (valueIdxLe x) := by
  constructor
  intro i j k hij hjk
  rcases hij with h | ⟨he, hle⟩
  · rcases hjk with h' | ⟨he', _⟩
    · exact Or.inl (h.trans h')
    · exact Or.inl (he' ▸ h)
  · rcases hjk with h' | ⟨he', hle'⟩
    · exact Or.inl (he ▸ h')
    · exact Or.inr ⟨he.trans he', hle.trans hle'⟩

/-- fitz.py lines 42-63, `find_minima`: indices of local minima of `x`
(boundaries included), ordered by ascending value. -/
def find_minima (x : List ℚ) : List Nat :=
  List.insertionSort (valueIdxLe x)
    ((List.range x.length).filter (fun i => decide (isLocalMin x i)))

/-- NumPy `np.min` over a nonempty list (the empty case, on which NumPy
raises, is mapped to 0; every use below is behind a length guard). -/
def listMin : List ℚ → ℚ
  | [] => 0
  | h :: t => t.foldl min h

/-- NumPy `np.max` over a nonempty list, by the same convention. -/
def listMax : List ℚ → ℚ
  | [] => 0
  | h :: t => t.foldl max h

/-- NumPy `np.argmin`: index of the first occurrence of the minimum value
(0 on the empty list, on which NumPy raises; all uses are length-guarded). -/
def argminQ (l : List ℚ) : Nat :=
  (List.range l.length).foldl
    (fun best j => if l.getD j 0 < l.getD best 0 then j else best) 0

/-- NumPy `np.linspace a b n`: `n` evenly spaced points from `a` to `b`
inclusive. -/
def linspace (a b : ℚ) (n : Nat) : List ℚ :=
  (List.range n).map (fun j => a + (b - a) * j / ((n : ℚ) - 1))

/-- Power sum `Σ xᵢᵏ` of the abscissae (note `v ^ 0 = 1`, so `powSum 0 x`
is the number of points). -/
def powSum (k : Nat) (x : List ℚ) : ℚ := (x.map (fun v => v ^ k)).sum

/-- Moment sum `Σ xᵢᵏ yᵢ` of the data. -/
def mixSum (k : Nat) (x y : List ℚ) : ℚ :=
  (List.zipWith (fun a b => a ^ k * b) x y).sum

/-- Determinant of the 3×3 normal matrix of the least-squares quadratic
fit `y = a x² + b x + c` (Gram matrix of the Vandermonde system that
`np.polyfit(x, y, 2)` solves). -/
def normalDet (x : List ℚ) : ℚ :=
  powSum 4 x * (powSum 2 x * powSum 0 x - powSum 1 x * powSum 1 x) -
    powSum 3 x * (powSum 3 x * powSum 0 x - powSum 1 x * powSum 2 x) +
    powSum 2 x * (powSum 3 x * powSum 1 x - powSum 2 x * powSum 2 x)

/-- Cramer numerator for the leading coefficient `a`. -/
def normalNumA (x y : List ℚ) : ℚ :=
  mixSum 2 x y * (powSum 2 x * powSum 0 x - powSum 1 x * powSum 1 x) -
    powSum 3 x * (mixSum 1 x y * powSum 0 x - powSum 1 x * mixSum 0 x y) +
    powSum 2 x * (mixSum 1 x y * powSum 1 x - powSum 2 x * mixSum 0 x y)

/-- Cramer numerator for the linear coefficient `b`. -/
def normalNumB (x y : List ℚ) : ℚ :=
  powSum 4 x * (mixSum 1 x y * powSum 0 x - powSum 1 x * mixSum 0 x y) -
    mixSum 2 x y * (powSum 3 x * powSum 0 x - powSum 1 x * powSum 2 x) +
    powSum 2 x * (powSum 3 x * mixSum 0 x y - mixSum 1 x y * powSum 2 x)

/-- Cramer numerator for the constant coefficient `c`. -/
def normalNumC (x y : List ℚ) : ℚ :=
  powSum 4 x * (powSum 2 x * mixSum 0 x y - powSum 1 x * mixSum 1 x y) -
    powSum 3 x * (powSum 3 x * mixSum 0 x y - powSum 2 x * mixSum 1 x y) +
    mixSum 2 x y * (powSum 3 x * powSum 1 x - powSum 2 x * powSum 2 x)

/-- fitz.py line 84, `np.polyfit(x, y, 2)`: least-squares quadratic
`y = a x² + b x + c`, embedded exactly as the solution of the 3×3 normal
equations by Cramer's rule over `ℚ`.  A singular normal matrix (rank
deficient data, e.g. repeated abscissae) is mapped to `none`, the failure
branch that the source catches as `np.linalg.LinAlgError` at line 85.  For
three distinct abscissae this is precisely the interpolating quadratic that
`np.polyfit` returns.  (`np.polyfit` itself rejects `x` and `y` of unequal
length with an uncaught `TypeError`; all call sites in `fitz` pass slices
of equal length, and the embedding truncates to the shorter list.) -/
def polyfit2 (x y : List ℚ) : Option (ℚ × ℚ × ℚ) :=
  if normalDet x = 0 then none
  else some (normalNumA x y / normalDet x, normalNumB x y / normalDet x,
    normalNumC x y / normalDet x)

/-- Return value of `minfit` (fitz.py line 107): the vertex abscissa `x0`,
the width `xerr`, the vertex value `y0` and the warning bits.  Since
`xerr = 1/sqrt(|a|)` is irrational in general, the embedding carries its
square `xerrSq = 1/|a|` (together with positivity this determines `xerr`);
the failure sentinel `xerr = -1` is carried as `xerrSq = -1`, which no
genuine square can equal. -/
structure MinfitResult where
  x0 : ℚ
  xerrSq : ℚ
  y0 : ℚ
  zwarn : Nat
deriving DecidableEq

/-- fitz.py lines 80, 86, 89: the bad-fit sentinel `(-1, -1, -1, BAD_MINFIT)`. -/
def minfitFail : MinfitResult := ⟨-1, -1, -1, ZW_BAD_MINFIT⟩

/-- fitz.py lines 91-107: the tail of `minfit` after a successful
`np.polyfit` with nonzero leading coefficient `a`: recast
`y = a x² + b x + c` as `y = y0 + ((x-x0)/xerr)²` and validate. -/
def minfitCore (x : List ℚ) (a b c : ℚ) : MinfitResult :=
  let x0 := -b / (2 * a)
  let y0 := -(b ^ 2) / (4 * a) + c
  let zwarn1 : Nat :=
    if x0 ≤ listMin x ∨ listMax x ≤ x0 then ZW_BAD_MINFIT else 0
  let zwarn2 : Nat := if y0 ≤ 0 then zwarn1 ||| ZW_BAD_MINFIT else zwarn1
  if 0 < a then ⟨x0, 1 / a, y0, zwarn2⟩
  else ⟨x0, 1 / (-a), y0, zwarn2 ||| ZW_BAD_MINFIT⟩

/-- fitz.py lines 66-107, `minfit`: fit `y = y0 + ((x-x0)/xerr)²` through
the data by a degree-2 polynomial fit. -/
def minfit (x y : List ℚ) : MinfitResult :=
  if x.length < 3 then minfitFail
  else match polyfit2 x y with
  | none => minfitFail
  | some (a, b, c) =>
    if a = 0 then minfitFail
    else minfitCore x a b c

/-- An accepted minimum as appended by fitz.py lines 244-252: the dict
`{z, zerr, zwarn, chi2, zz, zzchi2, coeff[, fulltype]}`.  `zerr` carries
`sigma = xerr` from `minfit`, hence (see `MinfitResult`) its square;
`fulltype = none` embeds the absence of the key in the no-archetype branch.
`npixels`, which the source adds only during finalization (lines 266-270),
is carried as a field that is 0 until `finalize` sets it. -/
structure FitResult where
  z : ℚ
  zerr : ℚ
  zwarn : Nat
  chi2 : ℚ
  zz : List ℚ
  zzchi2 : List ℚ
  coeff : List ℚ
  fulltype : Option String
  npixels : Nat
deriving DecidableEq

/-- Outcome of one iteration of the refinement loop, fitz.py lines 160-252:
`skip` is a `continue`, `raiseErr` is an exception escaping the loop
(the re-raised `ValueError` of line 218), `accept` is an append. -/
inductive StepResult where
  | skip : StepResult
  | raiseErr : StepResult
  | accept : FitResult → StepResult
deriving DecidableEq

/-- fitz.py lines 236-252: final part of a loop iteration, applied to the
values `zbest`, `zerr`, `chi2min`, `zwarn`, `coeff` the local variables
hold when line 236 is reached: late de-duplication (lines 236-241), then
append either the template-only result (lines 243-246) or the
archetype-rescored result (lines 247-252). -/
def acceptStep (archetype : Option (ℚ → ℚ × List ℚ × String))
    (maxVeloDiff : ℚ) (results : List FitResult) (zz zzchi2 : List ℚ)
    (zbest zerr chi2min : ℚ) (zwarn : Nat) (coeff : List ℚ) : StepResult :=
  if ∃ p ∈ results, |get_dv zbest p.z| < maxVeloDiff then .skip
  else
    match archetype with
    | none => .accept ⟨zbest, zerr, zwarn, chi2min, zz, zzchi2, coeff, none, 0⟩
    | some f =>
      -- line 248: `chi2min, coeff, fulltype = archetype.get_best_archetype(..., zbest, ...)`
      .accept ⟨zbest, zerr, zwarn, (f zbest).1, zz, zzchi2, (f zbest).2.1,
        some (f zbest).2.2, 0⟩

/-- fitz.py lines 220-252: continuation of a loop iteration after the
`try`/`except` block, starting from `zbest = zmin; zerr = sigma`.
`mf` is the parabola fit of line 196, `coeff` and `zwarn` are the values
those variables hold after the `try`/`except` (lines 198-218). -/
def refineTail (redshifts : List ℚ)
    (archetype : Option (ℚ → ℚ × List ℚ × String)) (maxVeloDiff : ℚ)
    (results : List FitResult) (zz zzchi2 : List ℚ) (mf : MinfitResult)
    (coeff : List ℚ) (zwarn : Nat) : StepResult :=
  let zmin := mf.x0
  let zerr := mf.xerrSq
  -- lines 223-228: parabola minimum outside fine-scan range; fall back to
  -- the fine scan's own minimum point (the three `fallback` ifs below share
  -- one condition and embed the source's simultaneous reassignment)
  let fallback := zmin < zz.getD 0 0 ∨ zz.getD (zz.length - 1) 0 < zmin
  let im := argminQ zzchi2
  let zbest := if fallback then zz.getD im 0 else zmin
  let chi2min := if fallback then zzchi2.getD im 0 else mf.y0
  let zwarn := if fallback then zwarn ||| ZW_BAD_MINFIT else zwarn
  -- lines 230-234: initial minimum or best fit too close to the edge of
  -- the full scan range
  let zwarn :=
    if zbest < redshifts.getD 1 0 ∨ redshifts.getD (redshifts.length - 2) 0 < zbest
    then zwarn ||| ZW_Z_FITLIMIT else zwarn
  let zwarn :=
    if zmin < redshifts.getD 1 0 ∨ redshifts.getD (redshifts.length - 2) 0 < zmin
    then zwarn ||| ZW_Z_FITLIMIT else zwarn
  acceptStep archetype maxVeloDiff results zz zzchi2 zbest zerr chi2min zwarn
    coeff

/-- fitz.py lines 171-174: the 15-point fine redshift grid around coarse
candidate `imin` (`ilo = max(0, imin-1)` is Nat truncated subtraction,
`ihi = min(imin+1, len(zchi2)-1)`). -/
def fineGrid (zchi2 redshifts : List ℚ) (imin : Nat) : List ℚ :=
  linspace (redshifts.getD (imin - 1) 0)
    (redshifts.getD (min (imin + 1) (zchi2.length - 1)) 0) 15

/-- fitz.py lines 194-196: the parabola fit through the 3 points
`zz[i-1:i+2]` of the fine grid centred (clamped to the interior) on the
fine-scan minimum, where `zzchi2 = scan zz` (lines 179-192). -/
def fineFit (zchi2 redshifts : List ℚ) (scan : List ℚ → List ℚ)
    (imin : Nat) : MinfitResult :=
  let zz := fineGrid zchi2 redshifts imin
  let zzchi2 := scan zz
  let i := min (max (argminQ zzchi2) 1) (zz.length - 2)
  minfit ((zz.drop (i - 1)).take 3) ((zzchi2.drop (i - 1)).take 3)

/-- fitz.py lines 160-252: body of the refinement loop for one candidate
index `imin`, given the already accepted `results`. -/
def refineOne (zchi2 redshifts : List ℚ) (nbasis : Nat)
    (scan : List ℚ → List ℚ) (single : ℚ → Option (List ℚ))
    (archetype : Option (ℚ → ℚ × List ℚ × String)) (maxVeloDiff : ℚ)
    (results : List FitResult) (imin : Nat) : StepResult :=
  -- lines 164-169: early de-duplication at the coarse candidate redshift
  if ∃ p ∈ results, |get_dv (redshifts.getD imin 0) p.z| < maxVeloDiff then
    .skip
  else
    let zz := fineGrid zchi2 redshifts imin
    -- lines 179-192: rebin + Lyman transmission + batched chi², i.e. `scan`
    let zzchi2 := scan zz
    -- lines 194-196
    let mf := fineFit zchi2 redshifts scan imin
    -- lines 198-218: single-point evaluation at zmin; `none` = ValueError
    match single mf.x0 with
    | some c => refineTail redshifts archetype maxVeloDiff results zz zzchi2 mf c mf.zwarn
    | none =>
      if mf.x0 < redshifts.getD 0 0 ∨
          redshifts.getD (redshifts.length - 1) 0 < mf.x0 then
        -- lines 211-215: beyond the scan range: zero coefficients, flags
        refineTail redshifts archetype maxVeloDiff results zz zzchi2 mf
          (List.replicate nbasis 0)
          (mf.zwarn ||| ZW_Z_FITLIMIT ||| ZW_BAD_MINFIT)
      else .raiseErr   -- lines 216-218: unknown problem; re-raise

/-- fitz.py lines 160-252: the refinement loop over the candidate list,
with the `break` of lines 161-162 once `nminima` results are accepted.
`none` embeds an exception escaping the loop. -/
def refineLoop (zchi2 redshifts : List ℚ) (nbasis : Nat)
    (scan : List ℚ → List ℚ) (single : ℚ → Option (List ℚ))
    (nminima : Nat) (archetype : Option (ℚ → ℚ × List ℚ × String))
    (maxVeloDiff : ℚ) : List Nat → List FitResult → Option (List FitResult)
  | [], results => some results
  | imin :: rest, results =>
    if results.length = nminima then some results
    else
      match refineOne zchi2 redshifts nbasis scan single archetype maxVeloDiff
          results imin with
      | .skip =>
        refineLoop zchi2 redshifts nbasis scan single nminima archetype
          maxVeloDiff rest results
      | .raiseErr => none
      | .accept r =>
        refineLoop zchi2 redshifts nbasis scan single nminima archetype
          maxVeloDiff rest (results ++ [r])

/-- fitz.py line 255 sort order: ascending `chi2` (`np.argsort`). -/
def chi2Le (a b : FitResult) : Prop := a.chi2 ≤ b.chi2

instance : DecidableRel chi2Le := fun a b =>
  inferInstanceAs (Decidable (a.chi2 ≤ b.chi2))

instance : IsTotal FitResult chi2Le := ⟨fun a b => le_total a.chi2 b.chi2⟩

instance : IsTrans FitResult chi2Le := ⟨fun _ _ _ h h' => le_trans h h'⟩

/-- fitz.py lines 268-270: total number of strictly-positive-weight samples
(`(s.ivar > 0.).sum()`) over all input spectra. -/
def npixelsOf (spectraIvar : List (List ℚ)) : Nat :=
  (spectraIvar.map (fun iv => iv.countP (fun v => decide (0 < v)))).sum

/-- fitz.py lines 254-281: sort accepted results by ascending `chi2` and
attach `npixels` to each.  The final dict-of-arrays transposition of lines
271-281 is a content-preserving change of layout and is left implicit. -/
def finalize (spectraIvar : List (List ℚ)) (results : List FitResult) :
    List FitResult :=
  (List.insertionSort chi2Le results).map
    (fun r => { r with npixels := npixelsOf spectraIvar })

/-- fitz.py lines 110-283, `fitz` (CPU path): refine the coarse chi² scan
around up to `nminima` minima.  `spectraIvar` carries the `ivar` arrays of
the input spectra (the only spectrum data the engine itself reads; the
rest feeds the `scan`/`single`/`archetype` collaborators).  `none` embeds
an uncaught exception: the failed `assert` of line 129 or 258, or the
re-raised `ValueError` of line 218. -/
def fitz (zchi2 redshifts : List ℚ) (spectraIvar : List (List ℚ))
    (nbasis : Nat) (scan : List ℚ → List ℚ)
    (single : ℚ → Option (List ℚ)) (nminima : Nat)
    (archetype : Option (ℚ → ℚ × List ℚ × String)) (maxVeloDiff : ℚ) :
    Option (List FitResult) :=
  if zchi2.length ≠ redshifts.length then none   -- line 129: assert
  else
    match refineLoop zchi2 redshifts nbasis scan single nminima archetype
        maxVeloDiff (find_minima zchi2) [] with
    | none => none
    | some results =>
      if results = [] then none                  -- line 258: assert
      else some (finalize spectraIvar results)

/-- targets.py lines 18-45: the `Spectrum` container after construction. -/
structure SpectrumObj where
  nwave : Nat
  wave : List ℚ
  flux : List ℚ
  ivar : List ℚ
  R : Option (List (List ℚ))
deriving DecidableEq

/-- targets.py lines 31-45, `Spectrum.__init__`.  The resolution matrix is
embedded by its dense rows.  The in-place mutation of the caller's `ivar`
array at lines 32-34 is embedded by explicit state passing: the first
component of the returned pair is the caller's array after the call, and
the constructed object aliases it. -/
def spectrumInit (wave flux ivar : List ℚ) (R : Option (List (List ℚ)))
    (minResIntegral : ℚ) : List ℚ × SpectrumObj :=
  let ivar' :=
    match R with
    | none => ivar
    | some rows =>
      -- lines 33-34: `w = R.sum(axis=1) < min_resolution_integral; ivar[w] = 0`
      (List.range ivar.length).map (fun i =>
        if (rows.getD i []).sum < minResIntegral then 0 else ivar.getD i 0)
  (ivar', ⟨wave.length, wave, flux, ivar', R⟩)

/-- Parameter list of `Archetype.get_best_archetype` as defined at
archetypes.py line 76 (excluding `self`). -/
def getBestArchetypeParams : List String :=
  ["spectra", "weights", "flux", "wflux", "dwave", "z", "legendre"]

/-- Positional argument list that `fitz` passes to
`archetype.get_best_archetype` at fitz.py line 248. -/
def fitzArchetypeCallArgs : List String :=
  ["spectra", "weights", "flux", "wflux", "dwave", "zbest", "legendre",
   "nearest_nbh", "n_nbh"]

/-- Python's positional-call arity check for a method with no defaulted or
variadic parameters: the call binds iff the counts agree. -/
def pythonCallArityOk (params args : List String) : Bool :=
  params.length == args.length

/-! ### Helper lemmas -/

theorem testBit_or_right {w : Nat} (z : Nat) {i : Nat}
    (h : w.testBit i = true) : (z ||| w).testBit i = true := by
  rw [Nat.testBit_or, h, Bool.or_true]

theorem testBit_or_left {z : Nat} (w : Nat) {i : Nat}
    (h : z.testBit i = true) : (z ||| w).testBit i = true := by
  rw [Nat.testBit_or, h, Bool.true_or]

/-! ### Claims about `find_minima` -/

/-- C4: `find_minima` returns exactly the indices whose value is ≤ both
neighbours (a boundary index counts the missing outer neighbour as
satisfied), ordered ascending by value with ties in original index order;
in particular `find_minima [1,1,1,2,2,2] = [0,1,2,4,5]`. -/
theorem find_minima_spec :
    (∀ (x : List ℚ) (i : Nat),
      i ∈ find_minima x ↔ i < x.length ∧ isLocalMin x i) ∧
    (∀ x : List ℚ, (find_minima x).Pairwise (valueIdxLe x)) ∧
    find_minima [1, 1, 1, 2, 2, 2] = [0, 1, 2, 4, 5] := by
  refine ⟨?_, ?_, ?_⟩
  · intro x i
    unfold find_minima
    rw [(List.perm_insertionSort (valueIdxLe x) _).mem_iff, List.mem_filter,
      List.mem_range]
    simp
  · intro x
    exact List.sorted_insertionSort _ _
  · norm_num [find_minima, isLocalMin, List.range, List.range.loop,
      List.insertionSort, List.orderedInsert, valueIdxLe]

/-! ### Claims about `minfit` -/

theorem ZW_BAD_MINFIT_testBit : ZW_BAD_MINFIT.testBit 10 = true := by decide

theorem ZW_Z_FITLIMIT_testBit : ZW_Z_FITLIMIT.testBit 5 = true := by decide

/-- C2 counterexample: on the 3 points `(0,10), (1,5), (2,2)` (which lie on
the parabola `y = (x-3)² + 1`) the fitted vertex `x0 = 3` lies outside
`[min x, max x] = [0, 2]`, yet `minfit` does not return the bad-fit
sentinel `(-1, -1, -1)`: it returns the fitted values `(3, 1, 1)` (with
`xerr = 1`, carried squared) together with the warning flag. -/
theorem minfit_sentinel_counterexample :
    minfit [0, 1, 2] [10, 5, 2] = ⟨3, 1, 1, ZW_BAD_MINFIT⟩ ∧
    listMax [0, 1, 2] ≤ (minfit [0, 1, 2] [10, 5, 2]).x0 ∧
    minfit [0, 1, 2] [10, 5, 2] ≠ minfitFail := by
  norm_num [minfit, minfitFail, minfitCore, polyfit2, normalDet, normalNumA,
    normalNumB, normalNumC, powSum, mixSum, listMin, listMax, ZW_BAD_MINFIT]

/-- C2 amended: `minfit` on fewer than 3 points returns the bad-fit
sentinel `(-1, -1, -1)` with the bad-fit flag; when the parabolic fit
yields a vertex `x0` outside the open interval `(min x, max x)`, the
returned result carries the bad-fit warning flag (bit 10), but the
returned values are the fitted `(x0, xerr, y0)`, not the sentinel. -/
theorem minfitCore_x0 (x : List ℚ) (a b c : ℚ) :
    (minfitCore x a b c).x0 = -b / (2 * a) := by
  unfold minfitCore
  split <;> rfl

theorem minfitCore_flag (x : List ℚ) (a b c : ℚ)
    (hout : -b / (2 * a) ≤ listMin x ∨ listMax x ≤ -b / (2 * a)) :
    (minfitCore x a b c).zwarn.testBit 10 = true := by
  unfold minfitCore
  simp only [if_pos hout]
  split <;> split <;> (dsimp only; decide)

theorem minfit_bad_fit_flag :
    (∀ x y : List ℚ, x.length < 3 → minfit x y = minfitFail) ∧
    (∀ (x y : List ℚ) (r : MinfitResult), minfit x y = r →
      r.x0 ≤ listMin x ∨ listMax x ≤ r.x0 → r.zwarn.testBit 10 = true) := by
  constructor
  · intro x y h
    unfold minfit
    rw [if_pos h]
  · intro x y r hm hcond
    unfold minfit at hm
    by_cases h3 : x.length < 3
    · rw [if_pos h3] at hm
      cases hm
      exact ZW_BAD_MINFIT_testBit
    · rw [if_neg h3] at hm
      rcases hpf : polyfit2 x y with _ | ⟨a, b, c⟩
      · rw [hpf] at hm
        cases hm
        exact ZW_BAD_MINFIT_testBit
      · rw [hpf] at hm
        dsimp only at hm
        by_cases ha : a = 0
        · rw [if_pos ha] at hm
          cases hm
          exact ZW_BAD_MINFIT_testBit
        · rw [if_neg ha] at hm
          cases hm
          exact minfitCore_flag x a b c (by rwa [minfitCore_x0] at hcond)

/-- Closed instance of `minfit_bad_fit_flag`: the 2-point input `[0,1]`
hits the sentinel branch, and the counterexample input has its flag set. -/
theorem minfit_bad_fit_flag_witness :
    minfit [0, 1] [1, 2] = minfitFail ∧
    (minfit [0, 1, 2] [10, 5, 2]).zwarn.testBit 10 = true :=
  ⟨minfit_bad_fit_flag.1 [0, 1] [1, 2] (by norm_num),
   minfit_bad_fit_flag.2 [0, 1, 2] [10, 5, 2] (minfit [0, 1, 2] [10, 5, 2])
     rfl (Or.inr (by
       norm_num [minfit, minfitCore, polyfit2, normalDet, normalNumA,
         normalNumB, normalNumC, powSum, mixSum, listMin, listMax,
         ZW_BAD_MINFIT]))⟩

theorem normalDet_three (x1 x2 x3 : ℚ) :
    normalDet [x1, x2, x3] = ((x1 - x2) * (x1 - x3) * (x2 - x3)) ^ 2 := by
  simp only [normalDet, powSum, List.map_cons, List.map_nil, List.sum_cons,
    List.sum_nil]
  ring

theorem normalDet_three_ne_zero {x1 x2 x3 : ℚ} (h12 : x1 ≠ x2)
    (h13 : x1 ≠ x3) (h23 : x2 ≠ x3) : normalDet [x1, x2, x3] ≠ 0 := by
  rw [normalDet_three]
  exact pow_ne_zero 2 (mul_ne_zero
    (mul_ne_zero (sub_ne_zero.mpr h12) (sub_ne_zero.mpr h13))
    (sub_ne_zero.mpr h23))

/-- C5: on 3 points with pairwise distinct abscissae sampled exactly from
the parabola `y = y0 + ((x-x0)/xerr)²` with vertex `x0` strictly inside
`(min x, max x)`, `y0 > 0` and `xerr² = w > 0`, `minfit` recovers
`(x0, xerr, y0)` exactly (`xerr` carried as its square `w`, which together
with `xerr > 0` determines it) with a zero warning flag. -/
theorem minfit_parabola_exact (x1 x2 x3 x0 y0 w : ℚ)
    (h12 : x1 ≠ x2) (h13 : x1 ≠ x3) (h23 : x2 ≠ x3)
    (hw : 0 < w) (hy : 0 < y0)
    (hlo : listMin [x1, x2, x3] < x0) (hhi : x0 < listMax [x1, x2, x3]) :
    minfit [x1, x2, x3]
      [y0 + (x1 - x0) ^ 2 / w, y0 + (x2 - x0) ^ 2 / w,
       y0 + (x3 - x0) ^ 2 / w] = ⟨x0, w, y0, 0⟩ := by
  set X : List ℚ := [x1, x2, x3] with hX
  set Y : List ℚ :=
    [y0 + (x1 - x0) ^ 2 / w, y0 + (x2 - x0) ^ 2 / w,
     y0 + (x3 - x0) ^ 2 / w] with hY
  have hwne : w ≠ 0 := hw.ne'
  have hdne : normalDet X ≠ 0 := normalDet_three_ne_zero h12 h13 h23
  have hA : normalNumA X Y = normalDet X * (1 / w) := by
    simp only [hX, hY, normalNumA, normalDet, powSum, mixSum, List.map_cons,
      List.map_nil, List.sum_cons, List.sum_nil, List.zipWith_cons_cons,
      List.zipWith_nil_right]
    field_simp
    ring
  have hB : normalNumB X Y = normalDet X * (-2 * x0 / w) := by
    simp only [hX, hY, normalNumB, normalDet, powSum, mixSum, List.map_cons,
      List.map_nil, List.sum_cons, List.sum_nil, List.zipWith_cons_cons,
      List.zipWith_nil_right]
    field_simp
    ring
  have hC : normalNumC X Y = normalDet X * (y0 + x0 ^ 2 / w) := by
    simp only [hX, hY, normalNumC, normalDet, powSum, mixSum, List.map_cons,
      List.map_nil, List.sum_cons, List.sum_nil, List.zipWith_cons_cons,
      List.zipWith_nil_right]
    field_simp
    ring
  have hpf : polyfit2 X Y = some (1 / w, -2 * x0 / w, y0 + x0 ^ 2 / w) := by
    unfold polyfit2
    rw [if_neg hdne, hA, hB, hC, mul_div_cancel_left₀ _ hdne,
      mul_div_cancel_left₀ _ hdne, mul_div_cancel_left₀ _ hdne]
  have hlen : ¬(X.length < 3) := by rw [hX]; norm_num
  have hane : ¬((1 : ℚ) / w = 0) := by
    simp only [one_div, ne_eq]
    exact inv_ne_zero hwne
  unfold minfit
  rw [if_neg hlen, hpf]
  dsimp only
  rw [if_neg hane]
  unfold minfitCore
  have e1 : -(-2 * x0 / w) / (2 * (1 / w)) = x0 := by field_simp
  have e2 : -((-2 * x0 / w) ^ 2) / (4 * (1 / w)) + (y0 + x0 ^ 2 / w) = y0 := by
    field_simp
    ring
  rw [e1, e2]
  have hcond : ¬(x0 ≤ listMin X ∨ listMax X ≤ x0) := by
    push_neg
    exact ⟨hlo, hhi⟩
  dsimp only
  rw [if_neg hcond, if_neg (not_le.mpr hy), if_pos (by positivity : (0:ℚ) < 1 / w),
    one_div_one_div]

/-- Closed instance of `minfit_parabola_exact` at
`x = [0,1,2]`, `x0 = 1`, `y0 = 1`, `xerr = 1`. -/
theorem minfit_parabola_exact_witness :
    minfit [0, 1, 2] [2, 1, 2] = ⟨1, 1, 1, 0⟩ := by
  have h := minfit_parabola_exact 0 1 2 1 1 1 (by norm_num) (by norm_num)
    (by norm_num) (by norm_num) (by norm_num)
    (by norm_num [listMin]) (by norm_num [listMax])
  norm_num at h
  exact h

/-! ### Structural lemmas about the refinement loop -/

theorem testBit_ite_or {P : Prop} [Decidable P] (z w : Nat) {i : Nat}
    (h : z.testBit i = true) :
    (if P then z ||| w else z).testBit i = true := by
  split
  · exact testBit_or_left _ h
  · exact h

theorem acceptStep_ne_raise (archetype : Option (ℚ → ℚ × List ℚ × String))
    (maxVeloDiff : ℚ) (results : List FitResult) (zz zzchi2 : List ℚ)
    (zbest zerr chi2min : ℚ) (zwarn : Nat) (coeff : List ℚ) :
    acceptStep archetype maxVeloDiff results zz zzchi2 zbest zerr chi2min
      zwarn coeff ≠ .raiseErr := by
  unfold acceptStep
  split
  · simp
  · rcases archetype with _ | f <;> simp

theorem acceptStep_accept {archetype : Option (ℚ → ℚ × List ℚ × String)}
    {maxVeloDiff : ℚ} {results : List FitResult} {zz zzchi2 : List ℚ}
    {zbest zerr chi2min : ℚ} {zwarn : Nat} {coeff : List ℚ} {r : FitResult}
    (h : acceptStep archetype maxVeloDiff results zz zzchi2 zbest zerr
      chi2min zwarn coeff = .accept r) :
    r.z = zbest ∧ r.zwarn = zwarn ∧
    (∀ p ∈ results, maxVeloDiff ≤ |get_dv zbest p.z|) ∧
    (archetype = none →
      r = ⟨zbest, zerr, zwarn, chi2min, zz, zzchi2, coeff, none, 0⟩) := by
  unfold acceptStep at h
  by_cases hguard : ∃ p ∈ results, |get_dv zbest p.z| < maxVeloDiff
  · rw [if_pos hguard] at h
    exact absurd h (by simp)
  · rw [if_neg hguard] at h
    have hsep : ∀ p ∈ results, maxVeloDiff ≤ |get_dv zbest p.z| := by
      intro p hp
      by_contra hlt
      exact hguard ⟨p, hp, not_le.mp hlt⟩
    rcases archetype with _ | f
    · injection h with h'
      subst h'
      exact ⟨rfl, rfl, hsep, fun _ => rfl⟩
    · injection h with h'
      subst h'
      exact ⟨rfl, rfl, hsep, fun hc => Option.noConfusion hc⟩

theorem refineTail_eq (redshifts : List ℚ)
    (archetype : Option (ℚ → ℚ × List ℚ × String)) (maxVeloDiff : ℚ)
    (results : List FitResult) (zz zzchi2 : List ℚ) (mf : MinfitResult)
    (coeff : List ℚ) (zwarn : Nat) :
    ∃ zbest chi2min zwarn2,
      refineTail redshifts archetype maxVeloDiff results zz zzchi2 mf coeff
          zwarn =
        acceptStep archetype maxVeloDiff results zz zzchi2 zbest mf.xerrSq
          chi2min zwarn2 coeff ∧
      (∀ i, zwarn.testBit i = true → zwarn2.testBit i = true) := by
  unfold refineTail
  dsimp only
  exact ⟨_, _, _, rfl,
    fun i hi => testBit_ite_or _ _ (testBit_ite_or _ _ (testBit_ite_or _ _ hi))⟩

theorem refineTail_accept_sep {redshifts : List ℚ}
    {archetype : Option (ℚ → ℚ × List ℚ × String)} {maxVeloDiff : ℚ}
    {results : List FitResult} {zz zzchi2 : List ℚ} {mf : MinfitResult}
    {coeff : List ℚ} {zwarn : Nat} {r : FitResult}
    (h : refineTail redshifts archetype maxVeloDiff results zz zzchi2 mf
      coeff zwarn = .accept r) :
    ∀ p ∈ results, maxVeloDiff ≤ |get_dv r.z p.z| := by
  obtain ⟨zb, ch, zw, heq, _⟩ :=
    refineTail_eq redshifts archetype maxVeloDiff results zz zzchi2 mf coeff
      zwarn
  rw [heq] at h
  obtain ⟨hz, _, hsep, _⟩ := acceptStep_accept h
  intro p hp
  rw [hz]
  exact hsep p hp

theorem refineTail_ne_raise (redshifts : List ℚ)
    (archetype : Option (ℚ → ℚ × List ℚ × String)) (maxVeloDiff : ℚ)
    (results : List FitResult) (zz zzchi2 : List ℚ) (mf : MinfitResult)
    (coeff : List ℚ) (zwarn : Nat) :
    refineTail redshifts archetype maxVeloDiff results zz zzchi2 mf coeff
      zwarn ≠ .raiseErr := by
  obtain ⟨zb, ch, zw, heq, _⟩ :=
    refineTail_eq redshifts archetype maxVeloDiff results zz zzchi2 mf coeff
      zwarn
  rw [heq]
  exact acceptStep_ne_raise _ _ _ _ _ _ _ _ _ _

theorem refineTail_accept_none {redshifts : List ℚ} {maxVeloDiff : ℚ}
    {results : List FitResult} {zz zzchi2 : List ℚ} {mf : MinfitResult}
    {coeff : List ℚ} {zwarn : Nat} {r : FitResult}
    (h : refineTail redshifts none maxVeloDiff results zz zzchi2 mf coeff
      zwarn = .accept r) :
    r.coeff = coeff ∧
    (∀ i, zwarn.testBit i = true → r.zwarn.testBit i = true) := by
  obtain ⟨zb, ch, zw, heq, hmono⟩ :=
    refineTail_eq redshifts none maxVeloDiff results zz zzchi2 mf coeff zwarn
  rw [heq] at h
  obtain ⟨_, hzw, _, hnone⟩ := acceptStep_accept h
  have hr := hnone rfl
  subst hr
  exact ⟨rfl, fun i hi => hmono i hi⟩

theorem refineOne_accept_sep {zchi2 redshifts : List ℚ} {nbasis : Nat}
    {scan : List ℚ → List ℚ} {single : ℚ → Option (List ℚ)}
    {archetype : Option (ℚ → ℚ × List ℚ × String)} {maxVeloDiff : ℚ}
    {results : List FitResult} {imin : Nat} {r : FitResult}
    (h : refineOne zchi2 redshifts nbasis scan single archetype maxVeloDiff
      results imin = .accept r) :
    ∀ p ∈ results, maxVeloDiff ≤ |get_dv r.z p.z| := by
  unfold refineOne at h
  by_cases hg : ∃ p ∈ results,
      |get_dv (redshifts.getD imin 0) p.z| < maxVeloDiff
  · rw [if_pos hg] at h
    exact absurd h (by simp)
  · rw [if_neg hg] at h
    dsimp only at h
    rcases hs : single (fineFit zchi2 redshifts scan imin).x0 with _ | c <;>
      rw [hs] at h
    · by_cases hr : (fineFit zchi2 redshifts scan imin).x0 <
          redshifts.getD 0 0 ∨
          redshifts.getD (redshifts.length - 1) 0 <
            (fineFit zchi2 redshifts scan imin).x0
      · rw [if_pos hr] at h
        exact refineTail_accept_sep h
      · rw [if_neg hr] at h
        exact absurd h (by simp)
    · exact refineTail_accept_sep h

theorem refineLoop_pairwise_sep (zchi2 redshifts : List ℚ) (nbasis : Nat)
    (scan : List ℚ → List ℚ) (single : ℚ → Option (List ℚ)) (nminima : Nat)
    (archetype : Option (ℚ → ℚ × List ℚ × String)) (maxVeloDiff : ℚ) :
    ∀ (cands : List Nat) (acc res : List FitResult),
      refineLoop zchi2 redshifts nbasis scan single nminima archetype
          maxVeloDiff cands acc = some res →
      acc.Pairwise (fun a b => maxVeloDiff ≤ |get_dv b.z a.z|) →
      res.Pairwise (fun a b => maxVeloDiff ≤ |get_dv b.z a.z|) := by
  intro cands
  induction cands with
  | nil =>
    intro acc res h hacc
    unfold refineLoop at h
    injection h with h'
    subst h'
    exact hacc
  | cons imin rest ih =>
    intro acc res h hacc
    unfold refineLoop at h
    by_cases hlen : acc.length = nminima
    · rw [if_pos hlen] at h
      injection h with h'
      subst h'
      exact hacc
    · rw [if_neg hlen] at h
      rcases hro : refineOne zchi2 redshifts nbasis scan single archetype
          maxVeloDiff acc imin with _ | _ | r <;> rw [hro] at h
      · exact ih acc res h hacc
      · cases h
      · refine ih (acc ++ [r]) res h ?_
        rw [List.pairwise_append]
        refine ⟨hacc, List.pairwise_singleton _ _, ?_⟩
        intro a ha b hb
        rw [List.mem_singleton] at hb
        subst hb
        exact refineOne_accept_sep hro a ha

theorem refineLoop_length_le (zchi2 redshifts : List ℚ) (nbasis : Nat)
    (scan : List ℚ → List ℚ) (single : ℚ → Option (List ℚ)) (nminima : Nat)
    (archetype : Option (ℚ → ℚ × List ℚ × String)) (maxVeloDiff : ℚ) :
    ∀ (cands : List Nat) (acc res : List FitResult),
      refineLoop zchi2 redshifts nbasis scan single nminima archetype
          maxVeloDiff cands acc = some res →
      acc.length ≤ nminima → res.length ≤ nminima := by
  intro cands
  induction cands with
  | nil =>
    intro acc res h hacc
    unfold refineLoop at h
    injection h with h'
    subst h'
    exact hacc
  | cons imin rest ih =>
    intro acc res h hacc
    unfold refineLoop at h
    by_cases hlen : acc.length = nminima
    · rw [if_pos hlen] at h
      injection h with h'
      subst h'
      exact hacc
    · rw [if_neg hlen] at h
      rcases hro : refineOne zchi2 redshifts nbasis scan single archetype
          maxVeloDiff acc imin with _ | _ | r <;> rw [hro] at h
      · exact ih acc res h hacc
      · cases h
      · refine ih (acc ++ [r]) res h ?_
        rw [List.length_append, List.length_singleton]
        exact Nat.succ_le_of_lt (lt_of_le_of_ne hacc hlen)

theorem fitz_some_elim {zchi2 redshifts : List ℚ}
    {spectraIvar : List (List ℚ)} {nbasis : Nat} {scan : List ℚ → List ℚ}
    {single : ℚ → Option (List ℚ)} {nminima : Nat}
    {archetype : Option (ℚ → ℚ × List ℚ × String)} {maxVeloDiff : ℚ}
    {rs : List FitResult}
    (h : fitz zchi2 redshifts spectraIvar nbasis scan single nminima
      archetype maxVeloDiff = some rs) :
    ∃ results,
      refineLoop zchi2 redshifts nbasis scan single nminima archetype
          maxVeloDiff (find_minima zchi2) [] = some results ∧
      results ≠ [] ∧ rs = finalize spectraIvar results := by
  unfold fitz at h
  by_cases hlen : zchi2.length ≠ redshifts.length
  · rw [if_pos hlen] at h
    cases h
  · rw [if_neg hlen] at h
    rcases hloop : refineLoop zchi2 redshifts nbasis scan single nminima
        archetype maxVeloDiff (find_minima zchi2) [] with _ | results <;>
      rw [hloop] at h <;> dsimp only at h
    · cases h
    · by_cases hne : results = []
      · rw [if_pos hne] at h
        cases h
      · rw [if_neg hne] at h
        injection h with h'
        exact ⟨results, rfl, hne, h'.symm⟩

theorem finalize_length (spectraIvar : List (List ℚ))
    (results : List FitResult) :
    (finalize spectraIvar results).length = results.length := by
  unfold finalize
  rw [List.length_map, (List.perm_insertionSort chi2Le results).length_eq]

theorem finalize_chain_chi2 (spectraIvar : List (List ℚ))
    (results : List FitResult) :
    (finalize spectraIvar results).Chain' (fun a b => a.chi2 ≤ b.chi2) := by
  apply List.Pairwise.chain'
  unfold finalize
  rw [List.pairwise_map]
  exact List.sorted_insertionSort chi2Le results

theorem finalize_pairwise_of_symm {S : FitResult → FitResult → Prop}
    (hS : ∀ a b, S a b → S b a)
    (hz : ∀ (a : FitResult) (n : Nat) (b : FitResult) (m : Nat),
      S a b → S { a with npixels := n } { b with npixels := m })
    (spectraIvar : List (List ℚ)) {results : List FitResult}
    (h : results.Pairwise S) :
    (finalize spectraIvar results).Pairwise S := by
  unfold finalize
  rw [List.pairwise_map]
  have hsorted : (List.insertionSort chi2Le results).Pairwise S :=
    ((List.perm_insertionSort chi2Le results).pairwise_iff
      (fun hab => hS _ _ hab)).mpr h
  exact hsorted.imp (fun hab => hz _ _ _ _ hab)

theorem finalize_npixels (spectraIvar : List (List ℚ))
    (results : List FitResult) :
    ∀ r ∈ finalize spectraIvar results, r.npixels = npixelsOf spectraIvar := by
  intro r hr
  unfold finalize at hr
  rw [List.mem_map] at hr
  obtain ⟨a, _, ha⟩ := hr
  rw [← ha]

/-! ### Claims about `fitz` -/

/-- C6: every result list returned by `fitz` is sorted by non-decreasing
`chi2`: consecutive results satisfy `chi2[i] ≤ chi2[i+1]`, regardless of
the order in which candidates were refined. -/
theorem fitz_sorted_chi2 (zchi2 redshifts : List ℚ)
    (spectraIvar : List (List ℚ)) (nbasis : Nat) (scan : List ℚ → List ℚ)
    (single : ℚ → Option (List ℚ)) (nminima : Nat)
    (archetype : Option (ℚ → ℚ × List ℚ × String)) (maxVeloDiff : ℚ)
    (rs : List FitResult)
    (h : fitz zchi2 redshifts spectraIvar nbasis scan single nminima
      archetype maxVeloDiff = some rs) :
    rs.Chain' (fun a b => a.chi2 ≤ b.chi2) := by
  obtain ⟨results, _, _, hrs⟩ := fitz_some_elim h
  rw [hrs]
  exact finalize_chain_chi2 spectraIvar results

/-- C7: whenever `fitz` returns normally its result set is nonempty; an
empty surviving set trips the `assert` at fitz.py line 258, a hard error,
embedded as the `none` return. -/
theorem fitz_nonempty (zchi2 redshifts : List ℚ)
    (spectraIvar : List (List ℚ)) (nbasis : Nat) (scan : List ℚ → List ℚ)
    (single : ℚ → Option (List ℚ)) (nminima : Nat)
    (archetype : Option (ℚ → ℚ × List ℚ × String)) (maxVeloDiff : ℚ)
    (rs : List FitResult)
    (h : fitz zchi2 redshifts spectraIvar nbasis scan single nminima
      archetype maxVeloDiff = some rs) :
    0 < rs.length := by
  obtain ⟨results, _, hne, hrs⟩ := fitz_some_elim h
  rw [hrs, finalize_length]
  exact List.length_pos.mpr hne

/-- C3 amended: every accepted result is separated from every *previously
accepted* one by at least `maxVeloDiff` km/s, the velocity offset being
measured with the earlier result as reference (`zref`); hence every pair
of distinct final results is separated by at least the threshold in at
least one of the two orientations of the (asymmetric) `get_dv` formula.
The original claim, which demands it for both orientations of every pair,
is refuted by `fitz_velocity_sep_counterexample`. -/
theorem fitz_velocity_sep (zchi2 redshifts : List ℚ)
    (spectraIvar : List (List ℚ)) (nbasis : Nat) (scan : List ℚ → List ℚ)
    (single : ℚ → Option (List ℚ)) (nminima : Nat)
    (archetype : Option (ℚ → ℚ × List ℚ × String)) (maxVeloDiff : ℚ)
    (rs : List FitResult)
    (h : fitz zchi2 redshifts spectraIvar nbasis scan single nminima
      archetype maxVeloDiff = some rs) :
    rs.Pairwise (fun a b =>
      maxVeloDiff ≤ |get_dv a.z b.z| ∨ maxVeloDiff ≤ |get_dv b.z a.z|) := by
  obtain ⟨results, hloop, _, hrs⟩ := fitz_some_elim h
  have hpw :
      results.Pairwise (fun a b => maxVeloDiff ≤ |get_dv b.z a.z|) :=
    refineLoop_pairwise_sep zchi2 redshifts nbasis scan single nminima
      archetype maxVeloDiff (find_minima zchi2) [] results hloop
      List.Pairwise.nil
  rw [hrs]
  exact finalize_pairwise_of_symm (fun a b hab => hab.symm)
    (fun a n b m hab => hab) spectraIvar (hpw.imp fun hab => Or.inr hab)

/-! ### Concrete runs of `fitz`

`cx*`: a 6-point coarse scan with local minima at indices 1 and 4 whose
refined redshifts are 0 and 100; with a 1 000 000 km/s threshold the pair
passes the de-duplication check in the orientation the code tests
(`zref` = previously accepted, `|get_dv 100 0| ≈ 3·10⁷`) but violates it
in the other orientation (`|get_dv 0 100| ≈ 296 824 < 10⁶`).

`c9*`: a 20-point coarse scan with a single deep minimum at index 10,
`nminima = 3`, and two spectra whose ivar arrays have 3 strictly positive
entries in total. -/

def cxzchi2 : List ℚ := [5, 1, 5, 6, 2, 6]

def cxredshifts : List ℚ := [-7, 0, 7, 93, 100, 107]

def cxscan : List ℚ → List ℚ :=
  fun zz => zz.map (fun z => if z < 50 then z ^ 2 + 1 else (z - 100) ^ 2 + 2)

def cxsingle : ℚ → Option (List ℚ) := fun _ => some [0]

def cxResult : List FitResult :=
  [⟨0, 1, 0, 1, [-7, -6, -5, -4, -3, -2, -1, 0, 1, 2, 3, 4, 5, 6, 7],
    [50, 37, 26, 17, 10, 5, 2, 1, 2, 5, 10, 17, 26, 37, 50], [0], none, 0⟩,
   ⟨100, 1, 0, 2,
    [93, 94, 95, 96, 97, 98, 99, 100, 101, 102, 103, 104, 105, 106, 107],
    [51, 38, 27, 18, 11, 6, 3, 2, 3, 6, 11, 18, 27, 38, 51], [0], none, 0⟩]

theorem cx_fitz_eval :
    fitz cxzchi2 cxredshifts [] 1 cxscan cxsingle 3 none 1000000 =
      some cxResult := by
  norm_num [fitz, refineLoop, refineOne, refineTail, acceptStep, fineFit,
    fineGrid, find_minima, isLocalMin, valueIdxLe, listMin, listMax,
    argminQ, linspace, minfit, minfitCore, minfitFail, polyfit2, normalDet,
    normalNumA, normalNumB, normalNumC, powSum, mixSum, finalize, npixelsOf,
    chi2Le, get_dv, cLight, ZW_BAD_MINFIT, ZW_Z_FITLIMIT, List.range,
    List.range.loop, List.insertionSort, List.orderedInsert,
    cxzchi2, cxredshifts, cxscan, cxsingle, cxResult, List.getD,
    List.exists_mem_cons_iff, abs_lt]
  exact fun h => absurd h (List.cons_ne_nil _ _)

def c9zchi2 : List ℚ :=
  [11, 10, 9, 8, 7, 6, 5, 4, 3, 2, 1, 2, 3, 4, 5, 6, 7, 8, 9, 10]

def c9redshifts : List ℚ :=
  [0, 7, 14, 21, 28, 35, 42, 49, 56, 63, 70, 77, 84, 91, 98, 105, 112, 119,
   126, 133]

def c9scan : List ℚ → List ℚ := fun zz => zz.map (fun z => (z - 70) ^ 2 + 5)

def c9single : ℚ → Option (List ℚ) := fun _ => some [2, 3]

def c9Result : List FitResult :=
  [⟨70, 1, 0, 5, [63, 64, 65, 66, 67, 68, 69, 70, 71, 72, 73, 74, 75, 76, 77],
    [54, 41, 30, 21, 14, 9, 6, 5, 6, 9, 14, 21, 30, 41, 54], [2, 3], none, 3⟩]

theorem c9_fitz_eval :
    fitz c9zchi2 c9redshifts [[1, 0, 2], [0, 3]] 2 c9scan c9single 3 none
      1000 = some c9Result := by
  norm_num [fitz, refineLoop, refineOne, refineTail, acceptStep, fineFit,
    fineGrid, find_minima, isLocalMin, valueIdxLe, listMin, listMax,
    argminQ, linspace, minfit, minfitCore, minfitFail, polyfit2, normalDet,
    normalNumA, normalNumB, normalNumC, powSum, mixSum, finalize, npixelsOf,
    chi2Le, get_dv, cLight, ZW_BAD_MINFIT, ZW_Z_FITLIMIT, List.range,
    List.range.loop, List.insertionSort, List.orderedInsert,
    c9zchi2, c9redshifts, c9scan, c9single, c9Result, List.getD,
    List.exists_mem_cons_iff, abs_lt]

/-- C3 counterexample: a run of `fitz` that accepts redshifts 0 and 100
under threshold 1 000 000 km/s, yet the ordered pair
`(z_i, z_j) = (0, 100)` has `|c·(z_i−z_j)/(1+z_j)| < 1 000 000`: the
claimed bound does not hold for every ordered pair of accepted results. -/
theorem fitz_velocity_sep_counterexample :
    fitz cxzchi2 cxredshifts [] 1 cxscan cxsingle 3 none 1000000 =
      some cxResult ∧
    cxResult.map (fun r => r.z) = [0, 100] ∧
    |get_dv 0 100| < 1000000 :=
  ⟨cx_fitz_eval, by norm_num [cxResult], by
    rw [get_dv, cLight, abs_lt]
    norm_num⟩

/-- Closed instance of `fitz_velocity_sep` at the `cx` run. -/
theorem fitz_velocity_sep_witness :
    List.Pairwise (fun a b : FitResult =>
      (1000000 : ℚ) ≤ |get_dv a.z b.z| ∨ (1000000 : ℚ) ≤ |get_dv b.z a.z|)
      cxResult :=
  fitz_velocity_sep cxzchi2 cxredshifts [] 1 cxscan cxsingle 3 none 1000000
    cxResult cx_fitz_eval

/-- Closed instance of `fitz_sorted_chi2` at the `cx` run. -/
theorem fitz_sorted_chi2_witness :
    List.Chain' (fun a b : FitResult => a.chi2 ≤ b.chi2) cxResult :=
  fitz_sorted_chi2 cxzchi2 cxredshifts [] 1 cxscan cxsingle 3 none 1000000
    cxResult cx_fitz_eval

/-- Closed instance of `fitz_nonempty` at the `c9` run. -/
theorem fitz_nonempty_witness : 0 < c9Result.length :=
  fitz_nonempty c9zchi2 c9redshifts [[1, 0, 2], [0, 3]] 2 c9scan c9single 3
    none 1000 c9Result c9_fitz_eval

/-- C9: the refinement loop stops at `nminima` accepted results, so every
returned list has at most `nminima` entries and is never padded, and every
result's `npixels` equals the total count of strictly-positive-weight
samples; in the concrete 20-point scenario with one deep minimum at index
10 and `nminima = 3`, `fitz` returns exactly one result with
`npixels = 3`. -/
theorem fitz_nminima_bound :
    (∀ (zchi2 redshifts : List ℚ) (spectraIvar : List (List ℚ))
        (nbasis : Nat) (scan : List ℚ → List ℚ)
        (single : ℚ → Option (List ℚ)) (nminima : Nat)
        (archetype : Option (ℚ → ℚ × List ℚ × String)) (maxVeloDiff : ℚ)
        (rs : List FitResult),
      fitz zchi2 redshifts spectraIvar nbasis scan single nminima archetype
          maxVeloDiff = some rs →
      rs.length ≤ nminima ∧ ∀ r ∈ rs, r.npixels = npixelsOf spectraIvar) ∧
    fitz c9zchi2 c9redshifts [[1, 0, 2], [0, 3]] 2 c9scan c9single 3 none
        1000 = some c9Result ∧
    c9Result.length = 1 ∧ (∀ r ∈ c9Result, r.npixels = 3) ∧
    npixelsOf [[1, 0, 2], [0, 3]] = 3 := by
  refine ⟨?_, c9_fitz_eval, rfl, ?_, ?_⟩
  · intro zchi2 redshifts spectraIvar nbasis scan single nminima archetype
      maxVeloDiff rs h
    obtain ⟨results, hloop, _, hrs⟩ := fitz_some_elim h
    constructor
    · rw [hrs, finalize_length]
      exact refineLoop_length_le zchi2 redshifts nbasis scan single nminima
        archetype maxVeloDiff (find_minima zchi2) [] results hloop
        (Nat.zero_le _)
    · rw [hrs]
      exact finalize_npixels spectraIvar results
  · simp [c9Result]
  · norm_num [npixelsOf, List.countP, List.countP.go]

/-- Closed instance of the universally quantified part of
`fitz_nminima_bound` at the `c9` run. -/
theorem fitz_nminima_bound_witness : c9Result.length ≤ 3 :=
  (fitz_nminima_bound.1 c9zchi2 c9redshifts [[1, 0, 2], [0, 3]] 2 c9scan
    c9single 3 none 1000 c9Result c9_fitz_eval).1

/-- C8: when the single-point evaluation at the fitted `zmin` raises
(`single zmin = none`) and `zmin` lies outside the coarse scan's range,
the loop body substitutes zero coefficients of length `nbasis`, sets both
the out-of-range flag (bit 5) and the bad-fit flag (bit 10), and never
re-raises: the candidate is either accepted with those values or skipped
by de-duplication, and processing continues.  (Stated for the
template-only path `archetype = none`; with an archetype the substituted
coefficients are afterwards overwritten by the archetype fit.) -/
theorem refineOne_out_of_range (zchi2 redshifts : List ℚ) (nbasis : Nat)
    (scan : List ℚ → List ℚ) (single : ℚ → Option (List ℚ))
    (maxVeloDiff : ℚ) (results : List FitResult) (imin : Nat)
    (hfail : single (fineFit zchi2 redshifts scan imin).x0 = none)
    (hout : (fineFit zchi2 redshifts scan imin).x0 < redshifts.getD 0 0 ∨
      redshifts.getD (redshifts.length - 1) 0 <
        (fineFit zchi2 redshifts scan imin).x0) :
    refineOne zchi2 redshifts nbasis scan single none maxVeloDiff results
        imin ≠ .raiseErr ∧
    ∀ r, refineOne zchi2 redshifts nbasis scan single none maxVeloDiff
        results imin = .accept r →
      r.coeff = List.replicate nbasis 0 ∧
      r.zwarn.testBit 5 = true ∧ r.zwarn.testBit 10 = true := by
  have hred : refineOne zchi2 redshifts nbasis scan single none maxVeloDiff
      results imin =
      if ∃ p ∈ results, |get_dv (redshifts.getD imin 0) p.z| < maxVeloDiff
      then StepResult.skip
      else refineTail redshifts none maxVeloDiff results
        (fineGrid zchi2 redshifts imin) (scan (fineGrid zchi2 redshifts imin))
        (fineFit zchi2 redshifts scan imin) (List.replicate nbasis 0)
        ((fineFit zchi2 redshifts scan imin).zwarn ||| ZW_Z_FITLIMIT |||
          ZW_BAD_MINFIT) := by
    unfold refineOne
    dsimp only
    rw [hfail]
    dsimp only
    rw [if_pos hout]
  constructor
  · rw [hred]
    split
    · simp
    · exact refineTail_ne_raise _ _ _ _ _ _ _ _ _
  · intro r hr
    rw [hred] at hr
    by_cases hg : ∃ p ∈ results,
        |get_dv (redshifts.getD imin 0) p.z| < maxVeloDiff
    · rw [if_pos hg] at hr
      exact absurd hr (by simp)
    · rw [if_neg hg] at hr
      obtain ⟨hcoeff, hmono⟩ := refineTail_accept_none hr
      exact ⟨hcoeff,
        hmono 5 (testBit_or_left _ (testBit_or_right _ ZW_Z_FITLIMIT_testBit)),
        hmono 10 (testBit_or_right _ ZW_BAD_MINFIT_testBit)⟩

def c8zchi2 : List ℚ := [1, 2, 3]

def c8redshifts : List ℚ := [0, 14, 28]

def c8scan : List ℚ → List ℚ := fun zz => zz.map (fun z => (z + 14) ^ 2 + 1)

def c8single : ℚ → Option (List ℚ) := fun _ => none

/-- Closed instance of `refineOne_out_of_range`: the fine scan of `c8scan`
is sampled from a parabola with vertex at `-14`, outside the coarse range
`[0, 28]`, and `c8single` always raises. -/
theorem refineOne_out_of_range_witness :
    refineOne c8zchi2 c8redshifts 2 c8scan c8single none 1000 [] 0 ≠
      .raiseErr :=
  (refineOne_out_of_range c8zchi2 c8redshifts 2 c8scan c8single 1000 [] 0
    rfl (Or.inl (by
      norm_num [fineFit, fineGrid, linspace, argminQ, minfit, minfitCore,
        minfitFail, polyfit2, normalDet, normalNumA, normalNumB, normalNumC,
        powSum, mixSum, listMin, listMax, c8zchi2, c8redshifts, c8scan,
        List.range, List.range.loop, List.getD, ZW_BAD_MINFIT]))).1

/-! ### Claim about the archetype re-scoring call (C1) -/

/-- C1 (code bug): `fitz` at fitz.py line 248 passes 9 positional
arguments to `Archetype.get_best_archetype`, which is defined at
archetypes.py line 76 with exactly 7 parameters besides `self` (no
defaults, no varargs), so any run that supplies an archetype set raises
`TypeError` at the first accepted minimum instead of re-scoring it. -/
theorem archetype_call_arity_mismatch :
    pythonCallArityOk getBestArchetypeParams fitzArchetypeCallArgs =
      false := by
  rfl

/-! ### Claim about the `Spectrum` constructor (C10) -/

/-- C10: constructing a `Spectrum` with a resolution matrix mutates the
caller-supplied `ivar` array in place: every entry whose resolution row
sum is below the threshold is zeroed, the others are kept; the object
stores exactly that mutated array (aliasing), and `wave` and `flux` are
stored unmodified.  Without a resolution matrix the array is untouched. -/
theorem spectrumInit_mutates_ivar (wave flux ivar : List ℚ)
    (rows : List (List ℚ)) (minResIntegral : ℚ) :
    (spectrumInit wave flux ivar (some rows) minResIntegral).2.ivar =
      (spectrumInit wave flux ivar (some rows) minResIntegral).1 ∧
    (spectrumInit wave flux ivar (some rows) minResIntegral).2.wave = wave ∧
    (spectrumInit wave flux ivar (some rows) minResIntegral).2.flux = flux ∧
    (spectrumInit wave flux ivar (some rows) minResIntegral).1.length =
      ivar.length ∧
    (∀ i : Nat, i < ivar.length →
      ((rows.getD i []).sum < minResIntegral →
        (spectrumInit wave flux ivar (some rows) minResIntegral).1.getD i 0 =
          0) ∧
      (¬(rows.getD i []).sum < minResIntegral →
        (spectrumInit wave flux ivar (some rows) minResIntegral).1.getD i 0 =
          ivar.getD i 0)) ∧
    (spectrumInit wave flux ivar none minResIntegral).1 = ivar := by
  refine ⟨rfl, rfl, rfl, ?_, ?_, rfl⟩
  · unfold spectrumInit
    dsimp only
    rw [List.length_map, List.length_range]
  · intro i hi
    unfold spectrumInit
    dsimp only
    have hmap : (List.map
        (fun i => if (rows.getD i []).sum < minResIntegral then 0
          else ivar.getD i 0) (List.range ivar.length)).getD i 0 =
        if (rows.getD i []).sum < minResIntegral then 0
        else ivar.getD i 0 := by
      rw [List.getD_eq_getElem?_getD, List.getElem?_map,
        List.getElem?_range hi]
      rfl
    rw [hmap]
    exact ⟨fun hlt => if_pos hlt, fun hge => if_neg hge⟩

/-- Closed instance of `spectrumInit_mutates_ivar`: rows `[[1], [0]]` with
threshold `1/2` zero the second ivar entry and keep the first. -/
theorem spectrumInit_mutates_ivar_witness :
    (spectrumInit [1, 2] [3, 4] [5, 6] (some [[1], [0]]) (1 / 2)).1.getD 1 0 =
      0 ∧
    (spectrumInit [1, 2] [3, 4] [5, 6] (some [[1], [0]]) (1 / 2)).1.getD 0 0 =
      ([5, 6] : List ℚ).getD 0 0 :=
  ⟨((spectrumInit_mutates_ivar [1, 2] [3, 4] [5, 6] [[1], [0]]
        (1 / 2)).2.2.2.2.1 1 (by norm_num)).1 (by norm_num [List.getD]),
   ((spectrumInit_mutates_ivar [1, 2] [3, 4] [5, 6] [[1], [0]]
        (1 / 2)).2.2.2.2.1 0 (by norm_num)).2 (by norm_num [List.getD])⟩

end Redrock

